import Mathlib

/-
Verification of the WIO password-candidate generation and verification engine.

This file gives a shallow embedding, in Lean 4, of the algorithmic core of the
repository — the hint extractor, the bank-context extractor, the rule-based and
LLM-merged candidate generator, and the PDF password verifier — and proves (or
refutes) the behavioural properties stated in the specification.

Conventions of the embedding:
  * Text is `List Char`; the repository only ever manipulates ASCII text, so
    lower-casing and the `re` character classes are modelled over ASCII.
  * External collaborators (pikepdf, PyPDF2, `json.loads`, the LLM HTTP
    endpoint, the SQLite store) are modelled as explicit parameters/oracles:
    the code under verification never implements them, it only branches on
    their outcomes.
  * Python exceptions that escape a function are modelled with `Except`;
    exceptions that the source catches are modelled by the value the handler
    produces.
  * Python floats only ever hold small decimal constants here and are only
    compared, never combined arithmetically, so they are modelled as `Rat`.
-/

namespace WIO

/-! ## Model of the pikepdf collaborator (src/code/python/pdf_unlocker.py)

`pikepdf.open(path, password=…)` either returns a document, raises
`pikepdf._qpdf.PasswordError`, or raises some other exception.  A PDF file on
disk is modelled by what each call observes. -/

/-- Outcome of one `pikepdf.open` call: success, `PasswordError`, or any other
exception. -/
inductive OpenOutcome where
  | ok
  | passwordError
  | otherError
deriving DecidableEq, Repr

/-- A PDF file as observed through `pikepdf.open`: the outcome of opening with
no password, and the outcome of opening with each given password. -/
structure PikePdfDoc where
  openNoPassword : OpenOutcome
  openWithPassword : String → OpenOutcome

/-- The value returned by `try_unlock_pdf`: `(pdf, password)` on success
(`password = none` when the no-password open succeeded), `(None, None)` when
the candidate list is exhausted. -/
inductive UnlockResult where
  | unlocked (password : Option String)
  | notFound
deriving DecidableEq, Repr

/-- The candidate loop of `try_unlock_pdf` (src/code/python/pdf_unlocker.py,
lines 111–117): for each password in order, attempt `pikepdf.open`; success
returns `(pdf, password)`; `except pikepdf._qpdf.PasswordError: continue`
advances to the next candidate; any other exception is not caught and
propagates (`Except.error`). -/
def tryPasswordList (doc : PikePdfDoc) : List String → Except Unit UnlockResult
  | [] => .ok .notFound
  | p :: rest =>
    match doc.openWithPassword p with
    | .ok => .ok (.unlocked (some p))
    | .passwordError => tryPasswordList doc rest
    | .otherError => .error ()

/-- `try_unlock_pdf` (src/code/python/pdf_unlocker.py, lines 98–120): first
try `pikepdf.open(pdf_path)` with no password, returning `(pdf, None)` on
success; on `PasswordError` fall through to the candidate loop; any other
exception from the first open is likewise uncaught. -/
def try_unlock_pdf (doc : PikePdfDoc) (password_list : List String) :
    Except Unit UnlockResult :=
  match doc.openNoPassword with
  | .ok => .ok (.unlocked none)
  | .passwordError => tryPasswordList doc password_list
  | .otherError => .error ()

/-- An encrypted document whose one true password is `t`: the no-password open
fails with `PasswordError`, opening with `t` succeeds, and opening with any
other string fails with `PasswordError` (qpdf behaviour on a genuinely
encrypted file). -/
def isEncryptedWith (doc : PikePdfDoc) (t : String) : Prop :=
  doc.openNoPassword = .passwordError ∧
    ∀ p, doc.openWithPassword p = if p = t then .ok else .passwordError

/-! ## Model of the PyPDF2 collaborator (src/code/clean/password_generator.py
`test_password_on_pdf`, src/code/pdf_unlocker.py `test_pdf`) -/

/-- A PDF file as observed through `PyPDF2.PdfReader`: whether it reports
itself encrypted, and which passwords `reader.decrypt` accepts. -/
structure PyPdfReader where
  is_encrypted : Bool
  decrypt : String → Bool

/-- `test_password_on_pdf` (src/code/clean/password_generator.py, lines
501–512; identical logic in `test_pdf`, src/code/pdf_unlocker.py): open the
file and construct a reader (`none` models `open`/`PdfReader` raising, which
the `except` clause turns into `False`); if the reader is encrypted return
`reader.decrypt(password)`, otherwise return `True` without looking at the
password. -/
def test_password_on_pdf (file : Option PyPdfReader) (password : String) : Bool :=
  match file with
  | none => false
  | some reader =>
    if reader.is_encrypted then reader.decrypt password else true

/-- The candidate loop at the end of `unlock_pdf` (src/code/pdf_unlocker.py):
for each candidate in order, if `test_pdf` accepts its password, report that
password as the working one. -/
def unlock_pdf_try (file : Option PyPdfReader) : List String → Option String
  | [] => none
  | p :: rest =>
    if test_password_on_pdf file p then some p else unlock_pdf_try file rest

/-- A concrete encrypted document whose true password is `"1234"`. -/
def encDoc1234 : PikePdfDoc :=
  { openNoPassword := .passwordError,
    openWithPassword := fun p => if p = "1234" then .ok else .passwordError }

/-- A concrete document that opens with no password at all. -/
def plainDoc : PikePdfDoc :=
  { openNoPassword := .ok, openWithPassword := fun _ => .ok }

/-- A concrete encrypted document on which every password attempt raises an
exception that is not `PasswordError` (e.g. a corrupt file). -/
def corruptDoc : PikePdfDoc :=
  { openNoPassword := .passwordError, openWithPassword := fun _ => .otherError }

/-- A concrete encrypted document that rejects every password. -/
def rejectAllDoc : PikePdfDoc :=
  { openNoPassword := .passwordError,
    openWithPassword := fun _ => .passwordError }

/-- A concrete unencrypted file as seen by PyPDF2, whose `decrypt` would
accept nothing. -/
def plainReader : PyPdfReader :=
  { is_encrypted := false, decrypt := fun _ => false }

/-! ## Text utilities

The repository's extraction code works over ASCII email text through Python's
`re` module.  Text is embedded as `List Char`; each regex used by the source
has a fixed, simple shape (literal alternations, a literal followed by a lazy
gap and a digit group, boundary-delimited digit/date/alphanumeric tokens), and
each shape is embedded below by a dedicated matcher whose search order copies
the backtracking order of the `re` engine (leftmost start position first;
greedy pieces prefer the longest extent, lazy pieces the shortest;
`finditer`/`findall` resume after the end of the previous match). -/

/-- ASCII lower-casing, as `str.lower()` acts on the ASCII text involved. -/
def lowerChar (c : Char) : Char :=
  if 'A' ≤ c ∧ c ≤ 'Z' then Char.ofNat (c.toNat + 32) else c

/-- Lower-case a whole text. -/
def lowerStr (s : List Char) : List Char := s.map lowerChar

/-- The regex `\d` on ASCII text. -/
def isDigitChar (c : Char) : Bool := '0' ≤ c && c ≤ '9'

/-- An ASCII letter (`[A-Za-z]`). -/
def isAsciiLetter (c : Char) : Bool :=
  ('a' ≤ c && c ≤ 'z') || ('A' ≤ c && c ≤ 'Z')

/-- The regex `\w` on ASCII text (`[A-Za-z0-9_]`), used for `\b` boundaries. -/
def isWordChar (c : Char) : Bool :=
  isAsciiLetter c || isDigitChar c || c = '_'

/-- `pat` is a prefix of `s` (both literal). -/
def startsWith : List Char → List Char → Bool
  | [], _ => true
  | _ :: _, [] => false
  | p :: ps, c :: cs => p = c && startsWith ps cs

/-- `pat` (given lower-case) is a prefix of `s` up to ASCII case, as a literal
matched under `re.IGNORECASE`. -/
def startsWithCI : List Char → List Char → Bool
  | [], _ => true
  | _ :: _, [] => false
  | p :: ps, c :: cs => p = lowerChar c && startsWithCI ps cs

/-- `re.search` of a literal in `s`: the literal occurs somewhere in `s`. -/
def containsSub (pat : List Char) : List Char → Bool
  | [] => startsWith pat []
  | c :: cs => startsWith pat (c :: cs) || containsSub pat cs

/-- `re.search` of an alternation of literals `(l₁|l₂|…)` in `s`. -/
def searchAlts (alts : List (List Char)) (s : List Char) : Bool :=
  alts.any fun a => containsSub a s

/-- Length of the run of consecutive digits at the front of `s`. -/
def digitRunLen : List Char → Nat
  | [] => 0
  | c :: cs => if isDigitChar c then digitRunLen cs + 1 else 0

/-- Try `f hi`, `f (hi-1)`, …, `f lo` in that order and return the first
success: the backtracking order of a greedy counted piece `x{lo,hi}`. -/
def firstDescAux (f : Nat → Option α) (lo : Nat) : Nat → Option α
  | 0 => f lo
  | d + 1 =>
    match f (lo + d + 1) with
    | some x => some x
    | none => firstDescAux f lo d

/-- `firstDesc f lo hi` tries `f` on `hi, hi-1, …, lo`, first success wins. -/
def firstDesc (f : Nat → Option α) (lo hi : Nat) : Option α :=
  if hi < lo then none else firstDescAux f lo (hi - lo)

/-- The tail `.*?(\d{m,n})` of a lazy-gap digit pattern, attempted at a fixed
position: walk right over non-newline characters (`.` does not match `\n`),
stopping at the first position where at least `m` consecutive digits start;
the greedy group then takes up to `n` of them.  Returns the group and the
rest of the text after the match. -/
def lazyDigits (m n : Nat) : List Char → Option (List Char × List Char)
  | [] => if m = 0 then some ([], []) else none
  | c :: cs =>
    if m ≤ digitRunLen (c :: cs) then
      let g := ((c :: cs).take n).takeWhile isDigitChar
      some (g, (c :: cs).drop g.length)
    else if c = '\n' then none
    else lazyDigits m n cs

/-- `re.finditer` of `LIT.*?(\d{m,n})` under `re.IGNORECASE` (`lit` given in
lower case): scan start positions left to right; where the literal matches,
attempt the lazy digit tail; emit the group and resume after the match.  The
fuel is the remaining text length, which bounds the number of scan steps. -/
def finditerLazyDigitsAux (lit : List Char) (m n : Nat) :
    Nat → List Char → List (List Char)
  | 0, _ => []
  | _, [] => []
  | fuel + 1, c :: cs =>
    if startsWithCI lit (c :: cs) then
      match lazyDigits m n ((c :: cs).drop lit.length) with
      | some (g, rest) => g :: finditerLazyDigitsAux lit m n fuel rest
      | none => finditerLazyDigitsAux lit m n fuel cs
    else finditerLazyDigitsAux lit m n fuel cs

/-- All groups of `re.finditer(LIT.*?(\d{m,n}), s, re.IGNORECASE)`. -/
def finditerLazyDigits (lit : List Char) (m n : Nat) (s : List Char) :
    List (List Char) :=
  finditerLazyDigitsAux lit m n s.length s

/-- The `\b` condition to the right of a match: end of text or a non-word
character. -/
def boundaryRightOk : List Char → Bool
  | [] => true
  | c :: _ => !isWordChar c

/-- A match attempt of `\d{a₁,b₁}SEP\d{a₂,b₂}SEP\d{a₃,b₃}\b` at a fixed
position (the left `\b` is checked by the scanner).  `sepOk` gives the
separator class (slash-or-dash, or a single fixed separator).  Each counted digit
group backtracks greedily, outer group first, mirroring the `re` engine.
Returns the whole match and the rest of the text. -/
def dateMatchAt (sepOk : Char → Bool) (a₁ b₁ a₂ b₂ a₃ b₃ : Nat)
    (u : List Char) : Option (List Char × List Char) :=
  firstDesc (fun k1 =>
    if k1 ≤ digitRunLen u then
      match u.drop k1 with
      | sep1 :: u1 =>
        if sepOk sep1 then
          firstDesc (fun k2 =>
            if k2 ≤ digitRunLen u1 then
              match u1.drop k2 with
              | sep2 :: u2 =>
                if sepOk sep2 then
                  firstDesc (fun k3 =>
                    if k3 ≤ digitRunLen u2 then
                      let rest := u2.drop k3
                      if boundaryRightOk rest then
                        some (u.take k1 ++ [sep1] ++ u1.take k2 ++ [sep2] ++
                          u2.take k3, rest)
                      else none
                    else none) a₃ b₃
                else none
              | [] => none
            else none) a₂ b₂
        else none
      | [] => none
    else none) a₁ b₁

/-- A match attempt of `\d{4,8}\b` at a fixed position (left `\b` checked by
the scanner): the greedy counted group backtracks from 8 down to 4 until the
right boundary holds. -/
def digitRun48MatchAt (u : List Char) : Option (List Char × List Char) :=
  firstDesc (fun k =>
    if k ≤ digitRunLen u then
      let rest := u.drop k
      if boundaryRightOk rest then some (u.take k, rest) else none
    else none) 4 8

/-- Generic `re.findall` scanner for patterns that start with `\b`: `bl`
records whether the current position is a left word boundary; where it is,
`matchAt` is attempted; on success the match is emitted and scanning resumes
after it. -/
def scanBoundary (matchAt : List Char → Option (List Char × List Char)) :
    Nat → Bool → List Char → List (List Char)
  | 0, _, _ => []
  | _, _, [] => []
  | fuel + 1, bl, c :: cs =>
    if bl then
      match matchAt (c :: cs) with
      | some (g, rest) =>
        g :: scanBoundary matchAt fuel (!isWordChar (g.getLastD c)) rest
      | none => scanBoundary matchAt fuel (!isWordChar c) cs
    else scanBoundary matchAt fuel (!isWordChar c) cs

/-- `re.findall` of a `\b`-anchored pattern over `s` (start of text is a left
boundary when the first character is a word character). -/
def findallBoundary (matchAt : List Char → Option (List Char × List Char))
    (s : List Char) : List (List Char) :=
  scanBoundary matchAt s.length true s

/-! ## Context Extractor (src/code/clean/password_generator.py,
`extract_bank_context`, lines 171–236) -/

/-- The ordered bank table of `extract_bank_context`: Python 3 dicts iterate
in insertion order, so the source's `bank_patterns` dict is an ordered table;
each regex is an alternation of lower-case literals. -/
def bank_patterns : List (String × List String) :=
  [("fab", ["fab", "first abu dhabi bank"]),
   ("adcb", ["adcb", "abu dhabi commercial bank"]),
   ("enbd", ["enbd", "emirates nbd"]),
   ("adib", ["adib", "abu dhabi islamic bank"]),
   ("dib", ["dib", "dubai islamic bank"]),
   ("mashreq", ["mashreq"]),
   ("rakbank", ["rak", "rakbank"]),
   ("nbf", ["nbf", "national bank of fujairah"]),
   ("hsbc", ["hsbc"]),
   ("citibank", ["citi"]),
   ("sc", ["standard chartered"])]

/-- One bank pattern matches a (lowered) text. -/
def bankPatMatches (alts : List String) (s : List Char) : Bool :=
  searchAlts (alts.map String.toList) s

/-- The `account_patterns` of the source: `account.*?(\d{4,6})`,
`a/c.*?(\d{4,6})`, `account ending.*?(\d{4,6})`, under `re.IGNORECASE`. -/
def account_patterns : List (List Char × Nat × Nat) :=
  [("account".toList, 4, 6), ("a/c".toList, 4, 6),
   ("account ending".toList, 4, 6)]

/-- The `card_patterns` of the source: `card.*?(\d{4})`,
`credit card.*?(\d{4})`, `ending.*?(\d{4})`, under `re.IGNORECASE`. -/
def card_patterns : List (List Char × Nat × Nat) :=
  [("card".toList, 4, 4), ("credit card".toList, 4, 4),
   ("ending".toList, 4, 4)]

/-- The slash-or-dash separator class of the source's date patterns. -/
def slashDash (c : Char) : Bool := c = '/' || c = '-'

/-- The `BankContext` dict built by `extract_bank_context`.  The source
collects matches into Python *lists* via `extend`; `amounts` is initialised
and never filled. -/
structure BankContext where
  bank : String
  account_numbers : List (List Char)
  card_numbers : List (List Char)
  dates : List (List Char)
  amounts : List (List Char)
deriving DecidableEq, Repr

/-- `extract_bank_context` (src/code/clean/password_generator.py, lines
171–236): identify the bank by the first table entry whose pattern matches
the lowered sender or lowered body; collect account fragments, card
fragments and dates by running each pattern's `finditer` over the body and
extending a list with the matches, in pattern order. -/
def extract_bank_context (email_body sender : List Char) : BankContext :=
  let sender_lower := lowerStr sender
  let email_lower := lowerStr email_body
  let bank :=
    match bank_patterns.find? (fun bp =>
      bankPatMatches bp.2 sender_lower || bankPatMatches bp.2 email_lower) with
    | some bp => bp.1
    | none => "unknown"
  let accounts := (account_patterns.map (fun p =>
    finditerLazyDigits p.1 p.2.1 p.2.2 email_body)).flatten
  let cards := (card_patterns.map (fun p =>
    finditerLazyDigits p.1 p.2.1 p.2.2 email_body)).flatten
  let dates :=
    findallBoundary (dateMatchAt slashDash 1 2 1 2 2 4) email_body ++
      findallBoundary (dateMatchAt slashDash 2 4 1 2 1 2) email_body
  { bank := bank, account_numbers := accounts, card_numbers := cards,
    dates := dates, amounts := [] }

/-- Claim-side reading of the bank-identification rule (C8): walk the ordered
table; the first entry whose pattern matches the sender, or failing that the
body, wins; `"unknown"` when no entry matches either. -/
def firstBankScan : List (String × List String) → List Char → List Char →
    String
  | [], _, _ => "unknown"
  | bp :: rest, senderLower, bodyLower =>
    if bankPatMatches bp.2 senderLower then bp.1
    else if bankPatMatches bp.2 bodyLower then bp.1
    else firstBankScan rest senderLower bodyLower

/-! ## Candidate Generator (src/code/clean/password_generator.py) -/

/-- The `PasswordCandidate` dataclass of the source.  `confidence` is a
Python float holding small decimal constants that are only compared, modelled
as `Rat`. -/
structure PasswordCandidate where
  password : String
  confidence : Rat
  source : String
  reasoning : String
deriving DecidableEq, Repr

/-- The personal-data rows `(data_type, data_value)` read by
`get_personal_data`; the source groups them into a dict of lists keyed by
`data_type`, appending values in row order. -/
def personalValues (rows : List (String × String)) (k : String) :
    List String :=
  (rows.filter fun r => r.1 = k).map fun r => r.2

/-- `re.sub` of slash-or-dash with the empty string: strip separators. -/
def stripSeps (s : String) : String :=
  (s.toList.filter fun c => !slashDash c).asString

/-- Python `mobile[-4:] if len(mobile) >= 4 else mobile`. -/
def lastFour (s : String) : String :=
  if 4 ≤ s.toList.length then (s.toList.drop (s.toList.length - 4)).asString
  else s

/-- `generate_rule_based_passwords` (src/code/clean/password_generator.py,
lines 320–399): emit, in source order, direct hints of length ≥ 4 at 9.0,
separator-stripped `birth_date` facts at 7.0, card fragments at 8.0, account
fragments at 7.0, separator-stripped context dates of length ≥ 6 at 6.0, the
last four digits of each `mobile_number` fact at 6.0, and
`name.lower() + card` for each `(first_name, card)` pair at 5.0.  The
`email_body` and `password_rules` parameters are taken but never read by the
source. -/
def generate_rule_based_passwords (email_body : List Char)
    (password_rules password_hints : List String)
    (personal_data : List (String × String)) (bank_context : BankContext) :
    List PasswordCandidate :=
  ((password_hints.filter fun h => 4 ≤ h.toList.length).map fun h =>
    { password := h, confidence := 9, source := "direct_hint",
      reasoning := "Found direct password hint: " ++ h }) ++
  ((personalValues personal_data "birth_date").map fun d =>
    { password := stripSeps d, confidence := 7, source := "birth_date",
      reasoning := "Birth date format: " ++ stripSeps d }) ++
  (bank_context.card_numbers.map fun c =>
    { password := c.asString, confidence := 8, source := "card_number",
      reasoning := "Last 4 digits of card: " ++ c.asString }) ++
  (bank_context.account_numbers.map fun a =>
    { password := a.asString, confidence := 7, source := "account_number",
      reasoning := "Account number digits: " ++ a.asString }) ++
  (((bank_context.dates.map fun d => stripSeps d.asString).filter fun d =>
      6 ≤ d.toList.length).map fun d =>
    { password := d, confidence := 6, source := "email_date",
      reasoning := "Date from email: " ++ d }) ++
  ((personalValues personal_data "mobile_number").map fun m =>
    { password := lastFour m, confidence := 6, source := "mobile_number",
      reasoning := "Last 4 digits of mobile: " ++ lastFour m }) ++
  ((personalValues personal_data "first_name").map fun name =>
    bank_context.card_numbers.map fun card =>
      { password := (lowerStr name.toList).asString ++ card.asString,
        confidence := (5 : Rat), source := "name_card_combo",
        reasoning := "First name + card digits: " ++
          ((lowerStr name.toList).asString ++ card.asString) }).flatten

/-- Stable insertion preserving non-increasing confidence: walk past entries
with strictly greater confidence and insert before the first entry whose
confidence is ≤ the new one, so earlier input stays before later input on
ties. -/
def insertDesc (a : PasswordCandidate) :
    List PasswordCandidate → List PasswordCandidate
  | [] => [a]
  | x :: xs =>
    if a.confidence < x.confidence then x :: insertDesc a xs else a :: x :: xs

/-- Python's `sorted(candidates, key=lambda x: x.confidence, reverse=True)`:
a stable descending sort (CPython's sort is guaranteed stable, and
`reverse=True` reverses comparisons, not the list, so equal keys keep their
input order). -/
def sortByConfDesc : List PasswordCandidate → List PasswordCandidate
  | [] => []
  | a :: l => insertDesc a (sortByConfDesc l)

/-- The dedup loop of `generate_passwords_for_email` (lines 453–459): walk
the sorted list with a `seen` set of password values, keeping only the first
occurrence of each value. -/
def dedupByPassword (seen : List String) :
    List PasswordCandidate → List PasswordCandidate
  | [] => []
  | c :: cs =>
    if c.password ∈ seen then dedupByPassword seen cs
    else c :: dedupByPassword (c.password :: seen) cs

/-- The merge stage of `generate_passwords_for_email` (lines 453–461): stable
sort descending by confidence, deduplicate by password value keeping first
occurrences, truncate to the top 20. -/
def mergeCandidates (cands : List PasswordCandidate) :
    List PasswordCandidate :=
  (dedupByPassword [] (sortByConfDesc cands)).take 20

/-! ## LLM collaborator and response parsing -/

/-- The observable outcome of the LLM HTTP call made by
`LocalLLMManager.generate_response`: a 200 response whose extracted text is
`body`, a non-200 status, an unreachable endpoint, or a timeout. -/
inductive LLMNetOutcome where
  | ok (body : String)
  | httpError (code : Nat)
  | unreachable
  | timeout
deriving DecidableEq, Repr

/-- `generate_response` (src/code/clean/password_generator.py, lines 48–84):
on a 200 response return the extracted response text; a non-200 status makes
`_ollama_generate` raise, and an unreachable endpoint or timeout makes
`requests.post` raise — all are caught by the `except` in
`generate_response`, which logs and returns the empty string. -/
def generate_response (outcome : LLMNetOutcome) : String :=
  match outcome with
  | .ok body => body
  | .httpError _ => ""
  | .unreachable => ""
  | .timeout => ""

/-- A parsed JSON value, as handed back by the `json.loads` collaborator.
Objects are modelled as key-value lists without duplicate keys (CPython's
`json.loads` returns a dict). -/
inductive JVal where
  | jnull
  | jbool (b : Bool)
  | jnum (q : Rat)
  | jstr (s : String)
  | jarr (l : List JVal)
  | jobj (l : List (String × JVal))

/-- Python `dict.get(k, dflt)` on a parsed JSON object. -/
def jget (l : List (String × JVal)) (k : String) (dflt : JVal) : JVal :=
  match l.find? fun kv => kv.1 = k with
  | some kv => kv.2
  | none => dflt

/-- The suffix of `s` starting at its first opening brace. -/
def dropToBrace : List Char → Option (List Char)
  | [] => none
  | c :: cs => if c = '{' then some (c :: cs) else dropToBrace cs

/-- The `re.search` of an open brace, then any characters, then a close
brace, with `re.DOTALL`, as used by `parse_llm_response`: the match runs from
the first opening brace to the last closing brace of the whole text (the gap
is greedy and `.` matches newlines under DOTALL); `none` when no such pair
exists. -/
def bracesExtract (s : List Char) : Option (List Char) :=
  match dropToBrace s with
  | none => none
  | some u =>
    let p := (u.reverse.dropWhile fun c => c ≠ '}').reverse
    if 2 ≤ p.length then some p else none

/-- Python `float(x)` on a JSON value: numbers pass through, booleans become
0/1, numeric strings go through the (oracle) string-to-float conversion, and
anything else raises `TypeError` (`none`). -/
def floatOfJVal (floatOfStr : String → Option Rat) : JVal → Option Rat
  | .jnum q => some q
  | .jbool b => some (if b then 1 else 0)
  | .jstr s => floatOfStr s
  | _ => none

/-- The candidate loop of `parse_llm_response`: process the `passwords`
elements in order, appending a candidate per element; an element that raises
(not a dict, or a confidence `float()` cannot convert) aborts the loop, and
the `except` keeps the candidates appended so far.  Elements whose
`password`/`reasoning` values are not strings (never produced by a conforming
response) are conservatively modelled as aborting too. -/
def parseCandLoop (floatOfStr : String → Option Rat) :
    List JVal → List PasswordCandidate
  | [] => []
  | .jobj kvs :: rest =>
    (match jget kvs "password" (.jstr ""), jget kvs "reasoning" (.jstr ""),
        floatOfJVal floatOfStr (jget kvs "confidence" (.jnum 0)) with
     | .jstr pw, .jstr reason, some conf =>
       { password := pw, confidence := conf, source := "llm",
         reasoning := reason } :: parseCandLoop floatOfStr rest
     | _, _, _ => [])
  | _ :: _ => []

/-- `parse_llm_response` (src/code/clean/password_generator.py, lines
296–318): extract the first-to-last brace-delimited substring; feed it to the
`json.loads` collaborator (`none` models a parse exception, caught by the
`except`); read the `passwords` list and build `source='llm'` candidates;
every failure path degrades to the candidates collected so far (the empty
list before the first element is processed). -/
def parse_llm_response (floatOfStr : String → Option Rat)
    (jsonLoads : String → Option JVal) (response : String) :
    List PasswordCandidate :=
  match bracesExtract response.toList with
  | none => []
  | some json_str =>
    match jsonLoads json_str.asString with
    | none => []
    | some (.jobj kvs) =>
      match jget kvs "passwords" (.jarr []) with
      | .jarr l => parseCandLoop floatOfStr l
      | _ => []
    | some _ => []

/-- The email row fetched by `generate_passwords_for_email`, with the stored
JSON hint/rule columns already decoded to lists (empty when the column was
empty). -/
structure EmailRow where
  email_body : List Char
  password_hints : List String
  password_rules : List String
  sender : List Char
  subject : List Char

/-- `generate_passwords_for_email` (src/code/clean/password_generator.py,
lines 401–461): a missing row yields `[]`; otherwise compute the bank
context, collect LLM candidates first (none when no LLM backend is
configured; the whole LLM step sits in a `try`/`except` and its failures are
caught, leaving those candidates empty), always append the rule-based
candidates, then sort/dedup/truncate. -/
def generate_passwords_for_email (row : Option EmailRow)
    (personal_data : List (String × String)) (llm : Option LLMNetOutcome)
    (floatOfStr : String → Option Rat) (jsonLoads : String → Option JVal) :
    List PasswordCandidate :=
  match row with
  | none => []
  | some r =>
    let bank_context := extract_bank_context r.email_body r.sender
    let llm_candidates :=
      match llm with
      | none => []
      | some outcome =>
        parse_llm_response floatOfStr jsonLoads (generate_response outcome)
    let rule_candidates := generate_rule_based_passwords r.email_body
      r.password_rules r.password_hints personal_data bank_context
    mergeCandidates (llm_candidates ++ rule_candidates)

/-- An LLM failure in the sense of the spec: endpoint unreachable, non-200
HTTP status, timeout, or a 200 body that is not (or does not contain) valid
JSON — i.e. `json.loads` rejects the brace-delimited substring, if any. -/
def llmFailure (jsonLoads : String → Option JVal) : LLMNetOutcome → Prop
  | .ok body => ∀ u, bracesExtract body.toList = some u →
      jsonLoads u.asString = none
  | .httpError _ => True
  | .unreachable => True
  | .timeout => True

/-! ## Hint Extractor (src/code/enhanced_gmail_client.py,
`extract_password_rules_and_hints`, lines 292–319)

The function returns `(hints, rules)`.  The rules computation appends to a
separate `rules` list from its own patterns and never touches `hints`; the
embedding below covers the hints component, which is what the claims
constrain. -/

/-- The character class of the hint patterns: letters, digits,
`@#$%^&*()_`, the range from plus to equals (which spans the comma, minus,
dot, slash, digits, colon, semicolon and less-than), brackets, braces, pipe,
and `;:,.<>?`.  It contains no whitespace. -/
def hintClassChar (c : Char) : Bool :=
  isAsciiLetter c || isDigitChar c ||
  c = '@' || c = '#' || c = '$' || c = '%' || c = '^' || c = '&' || c = '*' ||
  c = '(' || c = ')' || c = '_' || ('+' ≤ c && c ≤ '=') ||
  c = '[' || c = ']' || c = '{' || c = '}' || c = '|' ||
  c = ';' || c = ':' || c = ',' || c = '.' || c = '<' || c = '>' || c = '?'

/-- The gap class of the hint patterns: ASCII whitespace, colon, equals. -/
def wsColEq (c : Char) : Bool :=
  c = ' ' || c = '\t' || c = '\n' || c = '\r' || c = '\x0b' || c = '\x0c' ||
  c = ':' || c = '='

/-- The tail of the hint patterns after their literal: the greedy gap of
whitespace/colon/equals characters (backtracking from longest to shortest),
then a greedy group of 4 to 20 class characters.  Returns the group and the
rest of the text after the match; the group never needs `.strip()` (the
class has no whitespace) and always has length ≥ 4. -/
def hintTail (u : List Char) : Option (List Char × List Char) :=
  firstDesc (fun g =>
    let v := u.drop g
    let run := (v.takeWhile hintClassChar).length
    if 4 ≤ run then
      let glen := min 20 run
      some (v.take glen, v.drop glen)
    else none) 0 (u.takeWhile wsColEq).length

/-- `re.finditer` of a hint pattern `LIT`-gap-group under `re.IGNORECASE`:
scan start positions left to right, attempt the tail where the literal
matches, emit the group and resume after the match. -/
def finditerHintAux (lit : List Char) : Nat → List Char → List (List Char)
  | 0, _ => []
  | _, [] => []
  | fuel + 1, c :: cs =>
    if startsWithCI lit (c :: cs) then
      match hintTail ((c :: cs).drop lit.length) with
      | some (g, rest) => g :: finditerHintAux lit fuel rest
      | none => finditerHintAux lit fuel cs
    else finditerHintAux lit fuel cs

/-- All groups of the hint pattern with literal `lit` over `s`. -/
def finditerHint (lit : List Char) (s : List Char) : List (List Char) :=
  finditerHintAux lit s.length s

/-- The part of the third hint pattern after its greedy gap: the literal
`password`, then the gap-and-group tail. -/
def passwordTailAt (u : List Char) : Option (List Char × List Char) :=
  if startsWithCI "password".toList u then hintTail (u.drop 8) else none

/-- The greedy dot-star gap of the third hint pattern (`.` does not match a
newline): prefer the longest gap whose end starts a `password` tail match. -/
def greedyGapHint (u : List Char) : Option (List Char × List Char) :=
  firstDesc (fun g => passwordTailAt (u.drop g)) 0
    (u.takeWhile fun c => c ≠ '\n').length

/-- `re.finditer` of the third hint pattern (literal `to open`, greedy gap,
`password`, gap, group) under `re.IGNORECASE`. -/
def finditerToOpenAux : Nat → List Char → List (List Char)
  | 0, _ => []
  | _, [] => []
  | fuel + 1, c :: cs =>
    if startsWithCI "to open".toList (c :: cs) then
      match greedyGapHint ((c :: cs).drop 7) with
      | some (g, rest) => g :: finditerToOpenAux fuel rest
      | none => finditerToOpenAux fuel cs
    else finditerToOpenAux fuel cs

/-- All groups of the third hint pattern over `s`. -/
def finditerToOpen (s : List Char) : List (List Char) :=
  finditerToOpenAux s.length s

/-- A match attempt of the first alternation branch of the mixed-token
pattern (`\b`, letters, at least one digit, letters, `\b`) at a fixed
position; each greedy piece backtracks, leftmost piece outermost. -/
def mixedBranch1 (u : List Char) : Option (List Char × List Char) :=
  firstDesc (fun a1 =>
    if (u.take a1).all isAsciiLetter then
      let u1 := u.drop a1
      let d := (u1.takeWhile isDigitChar).length
      if 1 ≤ d then
        firstDesc (fun d1 =>
          let u2 := u1.drop d1
          firstDesc (fun b1 =>
            let rest := u2.drop b1
            if boundaryRightOk rest then
              some (u.take (a1 + d1 + b1), rest)
            else none) 0 (u2.takeWhile isAsciiLetter).length) 1 d
      else none
    else none) 0 (u.takeWhile isAsciiLetter).length

/-- A match attempt of the second alternation branch of the mixed-token
pattern (`\b`, at least one digit, at least one letter, digits, `\b`) at a
fixed position. -/
def mixedBranch2 (u : List Char) : Option (List Char × List Char) :=
  firstDesc (fun d1 =>
    if (u.take d1).all isDigitChar then
      let u1 := u.drop d1
      let a := (u1.takeWhile isAsciiLetter).length
      if 1 ≤ a then
        firstDesc (fun a1 =>
          let u2 := u1.drop a1
          firstDesc (fun e1 =>
            let rest := u2.drop e1
            if boundaryRightOk rest then
              some (u.take (d1 + a1 + e1), rest)
            else none) 0 (u2.takeWhile isDigitChar).length) 1 a
      else none
    else none) 1 (u.takeWhile isDigitChar).length

/-- The mixed-token pattern: first branch, then the second on failure, as
the `re` engine orders an alternation. -/
def mixedMatchAt (u : List Char) : Option (List Char × List Char) :=
  match mixedBranch1 u with
  | some r => some r
  | none => mixedBranch2 u

/-- Remove every occurrence of one character (Python `str.replace(x, '')`). -/
def removeChar (x : Char) (s : List Char) : List Char :=
  s.filter fun c => c ≠ x

/-- Python's `list(set(hints))`: the set collapses duplicates; its iteration
order is unspecified, so the embedding fixes the order-preserving
first-occurrence dedup, and callers may rely on membership only. -/
def dedupKeepFirst (seen : List String) : List String → List String
  | [] => []
  | s :: rest =>
    if s ∈ seen then dedupKeepFirst seen rest
    else s :: dedupKeepFirst (s :: seen) rest

/-- The hints component of `extract_password_rules_and_hints`
(src/code/enhanced_gmail_client.py, lines 292–319): empty body short-circuits
to no hints; otherwise collect, in order, the three gap-and-group hint
patterns, slash dates and dash dates with their separators removed, runs of
4–8 digits, and boundary-delimited mixed alphanumeric tokens of length ≥ 4,
then collapse duplicates via a set. -/
def extract_password_hints (email_body : List Char) : List String :=
  if email_body = [] then []
  else
    let h1 := finditerHint "password".toList email_body
    let h2 := finditerHint "pdf password".toList email_body
    let h3 := finditerToOpen email_body
    let dates1 := (findallBoundary (dateMatchAt (fun c => c = '/') 2 2 2 2 4 4)
      email_body).map (removeChar '/')
    let dates2 := (findallBoundary (dateMatchAt (fun c => c = '-') 2 2 2 2 4 4)
      email_body).map (removeChar '-')
    let d48 := findallBoundary digitRun48MatchAt email_body
    let mixed := (findallBoundary mixedMatchAt email_body).filter fun h =>
      4 ≤ h.length
    dedupKeepFirst []
      ((h1 ++ h2 ++ h3 ++ dates1 ++ dates2 ++ d48 ++ mixed).map List.asString)

/-- The body refuting C7 through the 20-character cap of the hint group: the
token after `password: ` has 21 characters. -/
def c7BodyA : List Char := "password: abcdefghijklmnopqrstu".toList

/-- The body refuting C7 through match overlap: the first `password` match
consumes the second `password:` occurrence as its group, and scanning resumes
past the `abcd` token. -/
def c7BodyB : List Char := "password: password: abcd".toList

/-- The section 8 scenario input of the spec. -/
def scenarioBody : List Char :=
  ("Your statement password is the last 4 digits of your card ending 1234 " ++
    "followed by your birth year 1990.").toList

/-- The scenario email row: the scenario fixes only the body; no stored
hints, rules, sender or subject. -/
def scenarioRow : EmailRow := ⟨scenarioBody, [], [], [], []⟩

/-- The scenario personal fact `birth_date = 01011990`. -/
def scenarioPersonal : List (String × String) := [("birth_date", "01011990")]

/-- The body used to refute C9. -/
def c9Body : List Char := "credit card ending 1234".toList

/-- A duplicate-valued pair used to exercise the merge in the C1 witness. -/
def w1a : PasswordCandidate := ⟨"aaaa", 5, "s1", "r1"⟩

/-- The higher-confidence duplicate kept by the merge in the C1 witness. -/
def w1b : PasswordCandidate := ⟨"aaaa", 7, "s2", "r2"⟩

/-- The row used by the C4 witness. -/
def c4Row : EmailRow := ⟨"credit card ending 1234".toList, ["abcd"], [], [], []⟩

/-! ## Theorems: the verifier (claims C2, C5, C6, C10) -/

/-- C2: for every encrypted document and every candidate list containing the
document's true password at some position, `try_unlock_pdf` returns success
with exactly that password value, regardless of its position in the list. -/
theorem verifier_finds_true_password (doc : PikePdfDoc) (t : String)
    (pwds : List String) (henc : isEncryptedWith doc t) (hmem : t ∈ pwds) :
    try_unlock_pdf doc pwds = .ok (.unlocked (some t)) := by
  obtain ⟨h0, hw⟩ := henc
  unfold try_unlock_pdf
  rw [h0]
  induction pwds with
  | nil => cases hmem
  | cons p rest ih =>
    unfold tryPasswordList
    rw [hw p]
    by_cases hp : p = t
    · subst hp; simp
    · rw [if_neg hp]
      exact ih (by cases hmem with
        | head => exact absurd rfl hp
        | tail _ h => exact h)

/-- C2 witness: the true password `"1234"` in second position is found and
reported exactly. -/
theorem verifier_finds_true_password_witness :
    try_unlock_pdf encDoc1234 ["abcd", "1234"] = .ok (.unlocked (some "1234")) :=
  verifier_finds_true_password encDoc1234 "1234" ["abcd", "1234"]
    ⟨rfl, fun _ => rfl⟩ (by simp)

/-- C5: for every document that opens with no password, `try_unlock_pdf`
returns success immediately with no candidate consumed: the reported password
is `none`, and the result does not depend on the candidate list at all. -/
theorem verifier_unencrypted_immediate (doc : PikePdfDoc) (pwds : List String)
    (h : doc.openNoPassword = .ok) :
    try_unlock_pdf doc pwds = .ok (.unlocked none) ∧
      try_unlock_pdf doc pwds = try_unlock_pdf doc [] := by
  unfold try_unlock_pdf
  rw [h]
  exact ⟨rfl, rfl⟩

/-- C5 witness: a document that is not password-protected is reported
unlocked with no candidate consumed. -/
theorem verifier_unencrypted_immediate_witness :
    try_unlock_pdf plainDoc ["1234"] = .ok (.unlocked none) ∧
      try_unlock_pdf plainDoc ["1234"] = try_unlock_pdf plainDoc [] :=
  verifier_unencrypted_immediate plainDoc ["1234"] rfl

/-- C6 counterexample: the candidate loop of `try_unlock_pdf` catches only
`pikepdf._qpdf.PasswordError`.  On a document where trying the (single,
non-working) candidate raises any other exception, the call does not return
`not_found`: the exception propagates to the caller, refuting the claim that
any other per-candidate error is treated as a skip. -/
theorem verifier_other_error_propagates :
    corruptDoc.openNoPassword = .passwordError ∧
      corruptDoc.openWithPassword "1234" = .otherError ∧
      try_unlock_pdf corruptDoc ["1234"] = .error () :=
  ⟨rfl, rfl, rfl⟩

/-- C6 amended: for every encrypted document and candidate list in which every
candidate fails with the wrong-password error (`PasswordError`), the verifier
scans the candidates linearly in order and, after exhausting the list, returns
`not_found` with no exception propagating.  (A per-candidate error other than
`PasswordError` is not caught and propagates, as the counterexample shows.) -/
theorem verifier_exhaustion_not_found (doc : PikePdfDoc) (pwds : List String)
    (h0 : doc.openNoPassword = .passwordError)
    (h : ∀ p ∈ pwds, doc.openWithPassword p = .passwordError) :
    try_unlock_pdf doc pwds = .ok .notFound := by
  unfold try_unlock_pdf
  rw [h0]
  induction pwds with
  | nil => rfl
  | cons p rest ih =>
    unfold tryPasswordList
    rw [h p (by simp)]
    exact ih fun q hq => h q (by simp [hq])

/-- C6 amended witness: two candidates, both rejected with `PasswordError`,
lead to `not_found` and no exception. -/
theorem verifier_exhaustion_not_found_witness :
    try_unlock_pdf rejectAllDoc ["abcd", "1234"] = .ok .notFound :=
  verifier_exhaustion_not_found rejectAllDoc ["abcd", "1234"] rfl
    (by intro p _; rfl)

/-- C10: for every readable PDF that is not encrypted, `test_password_on_pdf`
returns `True` for every supplied password, including incorrect ones; hence
when candidates are tried in order against such a document, the first
candidate is reported as a working password. -/
theorem test_password_unencrypted_always_true (reader : PyPdfReader)
    (password p : String) (rest : List String)
    (h : reader.is_encrypted = false) :
    test_password_on_pdf (some reader) password = true ∧
      unlock_pdf_try (some reader) (p :: rest) = some p := by
  have h1 : ∀ q, test_password_on_pdf (some reader) q = true := by
    intro q
    simp [test_password_on_pdf, h]
  exact ⟨h1 password, by simp [unlock_pdf_try, h1 p]⟩

/-- C10 witness: on an unencrypted file whose `decrypt` accepts nothing, the
wrong password `"zzzz"` still tests `True` and is reported as working when it
is the first candidate. -/
theorem test_password_unencrypted_always_true_witness :
    test_password_on_pdf (some plainReader) "zzzz" = true ∧
      unlock_pdf_try (some plainReader) ["zzzz", "1234"] = some "zzzz" :=
  test_password_unencrypted_always_true plainReader "zzzz" "zzzz" ["1234"] rfl

/-! ## Theorems: the context extractor (claims C8, C9) -/

/-- The dict-lookup-with-default on the bank table coincides with a first-
match scan that checks the sender and then the body per entry. -/
theorem findBank_eq_scan (table : List (String × List String))
    (s b : List Char) :
    (match table.find? (fun bp =>
        bankPatMatches bp.2 s || bankPatMatches bp.2 b) with
     | some bp => bp.1
     | none => "unknown") = firstBankScan table s b := by
  induction table with
  | nil => rfl
  | cons bp rest ih =>
    by_cases hs : bankPatMatches bp.2 s
    · simp [List.find?, hs, firstBankScan]
    · by_cases hb : bankPatMatches bp.2 b
      · simp [List.find?, hs, hb, firstBankScan]
      · simp [List.find?, hs, hb, firstBankScan, ih]

/-- C8: for every `(email_text, sender)` pair, the bank field of the
extracted context is the id of the first entry of the ordered table whose
pattern matches the lower-cased sender or, failing that, the lower-cased
body, and `"unknown"` when no entry matches either — first match in table
order, not best match. -/
theorem bank_identification_first_match (email_body sender : List Char) :
    (extract_bank_context email_body sender).bank
      = firstBankScan bank_patterns (lowerStr sender) (lowerStr email_body) :=
  findBank_eq_scan bank_patterns (lowerStr sender) (lowerStr email_body)

/-- C9 counterexample: on the body `credit card ending 1234` the three card
regexes each capture `1234`, and `extend` collects all three into the
`card_numbers` list — the extractor's output holds the same fragment three
times, so its collections are not duplicate-free sets. -/
theorem bank_context_card_duplicates :
    (extract_bank_context c9Body []).card_numbers
        = ["1234".toList, "1234".toList, "1234".toList] ∧
      ¬ ((extract_bank_context c9Body []).card_numbers).Nodup := by
  refine ⟨by decide, ?_⟩
  intro h
  rw [show (extract_bank_context c9Body []).card_numbers
      = ["1234".toList, "1234".toList, "1234".toList] from by decide] at h
  simp at h

/-- C9 amended: `extract_bank_context` collects account fragments, card
fragments and dates into lists, not sets, so a value extracted by several
regexes occurs several times (on `credit card ending 1234` the card fragment
`1234` occurs three times); uniqueness is only restored downstream, where the
candidate merge deduplicates by password value. -/
theorem bank_context_lists_dedup_downstream :
    (extract_bank_context c9Body []).card_numbers
        = ["1234".toList, "1234".toList, "1234".toList] ∧
      ((mergeCandidates (generate_rule_based_passwords c9Body [] [] []
          (extract_bank_context c9Body []))).map fun c => c.password)
        = ["1234"] := by
  constructor
  · decide
  · decide

/-! ## Theorems: the candidate generator (claims C3, C4, C1) -/

/-- Every rule-based candidate carries the `(source, confidence)` pair fixed
by its construction site. -/
theorem rule_based_source_conf (email_body : List Char)
    (password_rules password_hints : List String)
    (personal_data : List (String × String)) (bank_context : BankContext)
    (cand : PasswordCandidate)
    (hc : cand ∈ generate_rule_based_passwords email_body password_rules
      password_hints personal_data bank_context) :
    (cand.source, cand.confidence) ∈
      [("direct_hint", (9 : Rat)), ("birth_date", 7), ("card_number", 8),
       ("account_number", 7), ("email_date", 6), ("mobile_number", 6),
       ("name_card_combo", 5)] := by
  simp only [generate_rule_based_passwords, List.mem_append, List.mem_map,
    List.mem_filter, List.mem_flatten] at hc
  rcases hc with ((((((h | h) | h) | h) | h) | h) | h)
  · obtain ⟨x, hx, rfl⟩ := h; simp
  · obtain ⟨x, hx, rfl⟩ := h; simp
  · obtain ⟨x, hx, rfl⟩ := h; simp
  · obtain ⟨x, hx, rfl⟩ := h; simp
  · obtain ⟨x, hx, rfl⟩ := h; simp
  · obtain ⟨x, hx, rfl⟩ := h; simp
  · obtain ⟨l, hl, hm⟩ := h
    obtain ⟨n, hn, rfl⟩ := hl
    obtain ⟨c, hc2, rfl⟩ := List.mem_map.mp hm
    simp

/-- C3: the rule-based generator assigns each candidate the confidence and
transformation fixed by its source — every hint of length ≥ 4 yields a 9.0
`direct_hint` candidate; every `birth_date` fact, separators stripped, a 7.0
`birth_date` candidate; every card fragment an 8.0 `card_number` candidate;
every account fragment a 7.0 `account_number` candidate; every context date,
separators stripped, a 6.0 `email_date` candidate when at least 6 long; every
`mobile_number` fact its last four digits at 6.0; every
`(first_name, card)` pair `lower(name) ++ card` at 5.0; conversely every
candidate carries the pair fixed by its source.  On the section 8 scenario
input with personal fact `birth_date = 01011990`, the generated list is
exactly `1234` (`card_number`, 8.0) followed by `01011990` (`birth_date`,
7.0): the card candidate ranks above the birth-date candidate. -/
theorem rule_based_confidences (email_body : List Char)
    (password_rules password_hints : List String)
    (personal_data : List (String × String)) (bank_context : BankContext) :
    (∀ h ∈ password_hints, 4 ≤ h.toList.length →
      ({ password := h, confidence := 9, source := "direct_hint",
         reasoning := "Found direct password hint: " ++ h } :
        PasswordCandidate) ∈ generate_rule_based_passwords email_body
          password_rules password_hints personal_data bank_context) ∧
    (∀ d ∈ personalValues personal_data "birth_date",
      ({ password := stripSeps d, confidence := 7, source := "birth_date",
         reasoning := "Birth date format: " ++ stripSeps d } :
        PasswordCandidate) ∈ generate_rule_based_passwords email_body
          password_rules password_hints personal_data bank_context) ∧
    (∀ c ∈ bank_context.card_numbers,
      ({ password := c.asString, confidence := 8, source := "card_number",
         reasoning := "Last 4 digits of card: " ++ c.asString } :
        PasswordCandidate) ∈ generate_rule_based_passwords email_body
          password_rules password_hints personal_data bank_context) ∧
    (∀ a ∈ bank_context.account_numbers,
      ({ password := a.asString, confidence := 7, source := "account_number",
         reasoning := "Account number digits: " ++ a.asString } :
        PasswordCandidate) ∈ generate_rule_based_passwords email_body
          password_rules password_hints personal_data bank_context) ∧
    (∀ d ∈ bank_context.dates, 6 ≤ (stripSeps d.asString).toList.length →
      ({ password := stripSeps d.asString, confidence := 6,
         source := "email_date",
         reasoning := "Date from email: " ++ stripSeps d.asString } :
        PasswordCandidate) ∈ generate_rule_based_passwords email_body
          password_rules password_hints personal_data bank_context) ∧
    (∀ m ∈ personalValues personal_data "mobile_number",
      ({ password := lastFour m, confidence := 6, source := "mobile_number",
         reasoning := "Last 4 digits of mobile: " ++ lastFour m } :
        PasswordCandidate) ∈ generate_rule_based_passwords email_body
          password_rules password_hints personal_data bank_context) ∧
    (∀ n ∈ personalValues personal_data "first_name",
      ∀ c ∈ bank_context.card_numbers,
      ({ password := (lowerStr n.toList).asString ++ c.asString,
         confidence := 5, source := "name_card_combo",
         reasoning := "First name + card digits: " ++
           ((lowerStr n.toList).asString ++ c.asString) } :
        PasswordCandidate) ∈ generate_rule_based_passwords email_body
          password_rules password_hints personal_data bank_context) ∧
    (∀ cand ∈ generate_rule_based_passwords email_body password_rules
        password_hints personal_data bank_context,
      (cand.source, cand.confidence) ∈
        [("direct_hint", (9 : Rat)), ("birth_date", 7), ("card_number", 8),
         ("account_number", 7), ("email_date", 6), ("mobile_number", 6),
         ("name_card_combo", 5)]) ∧
    generate_passwords_for_email (some scenarioRow) scenarioPersonal none
        (fun _ => none) (fun _ => none)
      = [{ password := "1234", confidence := 8, source := "card_number",
           reasoning := "Last 4 digits of card: 1234" },
         { password := "01011990", confidence := 7, source := "birth_date",
           reasoning := "Birth date format: 01011990" }] := by
  refine ⟨?_, ?_, ?_, ?_, ?_, ?_, ?_, ?_, ?_⟩
  · intro h hh hlen
    simp only [generate_rule_based_passwords]
    exact List.mem_append_left _ (List.mem_append_left _
      (List.mem_append_left _ (List.mem_append_left _
        (List.mem_append_left _ (List.mem_append_left _
          (List.mem_map_of_mem _
            (List.mem_filter.mpr ⟨hh, decide_eq_true hlen⟩)))))))
  · intro d hd
    simp only [generate_rule_based_passwords]
    exact List.mem_append_left _ (List.mem_append_left _
      (List.mem_append_left _ (List.mem_append_left _
        (List.mem_append_left _ (List.mem_append_right _
          (List.mem_map_of_mem _ hd))))))
  · intro c hc
    simp only [generate_rule_based_passwords]
    exact List.mem_append_left _ (List.mem_append_left _
      (List.mem_append_left _ (List.mem_append_left _
        (List.mem_append_right _ (List.mem_map_of_mem _ hc)))))
  · intro a ha
    simp only [generate_rule_based_passwords]
    exact List.mem_append_left _ (List.mem_append_left _
      (List.mem_append_left _ (List.mem_append_right _
        (List.mem_map_of_mem _ ha))))
  · intro d hd hlen
    simp only [generate_rule_based_passwords]
    exact List.mem_append_left _ (List.mem_append_left _
      (List.mem_append_right _ (List.mem_map_of_mem _
        (List.mem_filter.mpr ⟨List.mem_map_of_mem _ hd,
          decide_eq_true hlen⟩))))
  · intro m hm
    simp only [generate_rule_based_passwords]
    exact List.mem_append_left _ (List.mem_append_right _
      (List.mem_map_of_mem _ hm))
  · intro n hn c hc
    simp only [generate_rule_based_passwords]
    exact List.mem_append_right _ (List.mem_flatten.mpr
      ⟨_, List.mem_map_of_mem _ hn, List.mem_map_of_mem _ hc⟩)
  · intro cand hcand
    exact rule_based_source_conf email_body password_rules password_hints
      personal_data bank_context cand hcand
  · decide

/-- C3 witness: concrete instances of each production — a length-4 hint, a
birth date with separators, a card fragment, an account fragment, a context
date, a mobile number, a name-card combination — plus the concrete scenario
list. -/
theorem rule_based_confidences_witness :
    ({ password := "abcd", confidence := 9, source := "direct_hint",
       reasoning := "Found direct password hint: abcd" } :
      PasswordCandidate) ∈ generate_rule_based_passwords [] [] ["abcd"]
        [("birth_date", "01/01/1990"), ("mobile_number", "971501234567"),
         ("first_name", "John")]
        ⟨"unknown", ["987654".toList], ["1234".toList],
          ["01/02/2024".toList], []⟩ ∧
    ({ password := "01011990", confidence := 7, source := "birth_date",
       reasoning := "Birth date format: 01011990" } :
      PasswordCandidate) ∈ generate_rule_based_passwords [] [] ["abcd"]
        [("birth_date", "01/01/1990"), ("mobile_number", "971501234567"),
         ("first_name", "John")]
        ⟨"unknown", ["987654".toList], ["1234".toList],
          ["01/02/2024".toList], []⟩ ∧
    ({ password := "4567", confidence := 6, source := "mobile_number",
       reasoning := "Last 4 digits of mobile: 4567" } :
      PasswordCandidate) ∈ generate_rule_based_passwords [] [] ["abcd"]
        [("birth_date", "01/01/1990"), ("mobile_number", "971501234567"),
         ("first_name", "John")]
        ⟨"unknown", ["987654".toList], ["1234".toList],
          ["01/02/2024".toList], []⟩ ∧
    ({ password := "john1234", confidence := 5, source := "name_card_combo",
       reasoning := "First name + card digits: john1234" } :
      PasswordCandidate) ∈ generate_rule_based_passwords [] [] ["abcd"]
        [("birth_date", "01/01/1990"), ("mobile_number", "971501234567"),
         ("first_name", "John")]
        ⟨"unknown", ["987654".toList], ["1234".toList],
          ["01/02/2024".toList], []⟩ ∧
    generate_passwords_for_email (some scenarioRow) scenarioPersonal none
        (fun _ => none) (fun _ => none)
      = [{ password := "1234", confidence := 8, source := "card_number",
           reasoning := "Last 4 digits of card: 1234" },
         { password := "01011990", confidence := 7, source := "birth_date",
           reasoning := "Birth date format: 01011990" }] := by
  obtain ⟨p1, p2, p3, p4, p5, p6, p7, p8, p9⟩ := rule_based_confidences []
    [] ["abcd"]
    [("birth_date", "01/01/1990"), ("mobile_number", "971501234567"),
     ("first_name", "John")]
    ⟨"unknown", ["987654".toList], ["1234".toList], ["01/02/2024".toList], []⟩
  refine ⟨p1 "abcd" (by decide) (by decide), ?_, ?_, ?_, p9⟩
  · have := p2 "01/01/1990" (by decide)
    simpa using this
  · have := p6 "971501234567" (by decide)
    simpa using this
  · have := p7 "John" (by decide) "1234".toList (by decide)
    simpa using this

/-- Membership in a stable insertion. -/
theorem mem_insertDesc (a x : PasswordCandidate)
    (l : List PasswordCandidate) : x ∈ insertDesc a l ↔ x = a ∨ x ∈ l := by
  induction l with
  | nil => simp [insertDesc]
  | cons y ys ih =>
    by_cases h : a.confidence < y.confidence
    · rw [show insertDesc a (y :: ys) = y :: insertDesc a ys from by
        simp [insertDesc, h]]
      rw [List.mem_cons, ih, List.mem_cons]
      tauto
    · rw [show insertDesc a (y :: ys) = a :: y :: ys from by
        simp [insertDesc, h]]
      exact List.mem_cons

/-- Membership is preserved by the stable sort. -/
theorem mem_sortByConfDesc (x : PasswordCandidate)
    (l : List PasswordCandidate) : x ∈ sortByConfDesc l ↔ x ∈ l := by
  induction l with
  | nil => simp [sortByConfDesc]
  | cons a l ih => simp [sortByConfDesc, mem_insertDesc, ih]

/-- Stable insertion preserves the non-increasing-confidence invariant. -/
theorem pairwise_insertDesc (a : PasswordCandidate)
    (l : List PasswordCandidate)
    (h : l.Pairwise fun p q => q.confidence ≤ p.confidence) :
    (insertDesc a l).Pairwise fun p q => q.confidence ≤ p.confidence := by
  induction l with
  | nil => simp [insertDesc]
  | cons y ys ih =>
    rcases List.pairwise_cons.mp h with ⟨hy, hys⟩
    by_cases hlt : a.confidence < y.confidence
    · rw [show insertDesc a (y :: ys) = y :: insertDesc a ys from by
        simp [insertDesc, hlt]]
      refine List.pairwise_cons.mpr ⟨?_, ih hys⟩
      intro z hz
      rcases (mem_insertDesc a z ys).mp hz with rfl | hz'
      · exact le_of_lt hlt
      · exact hy z hz'
    · rw [show insertDesc a (y :: ys) = a :: y :: ys from by
        simp [insertDesc, hlt]]
      refine List.pairwise_cons.mpr ⟨?_, h⟩
      intro z hz
      rcases List.mem_cons.mp hz with rfl | hz'
      · exact not_lt.mp hlt
      · exact le_trans (hy z hz') (not_lt.mp hlt)

/-- The stable sort's output is non-increasing in confidence. -/
theorem pairwise_sortByConfDesc (l : List PasswordCandidate) :
    (sortByConfDesc l).Pairwise fun p q => q.confidence ≤ p.confidence := by
  induction l with
  | nil => simp [sortByConfDesc]
  | cons a l ih => exact pairwise_insertDesc a _ ih

/-- Stable insertion preserves, per confidence value, the subsequence of
entries holding that value (this is what stability of the sort means). -/
theorem filter_insertDesc (a : PasswordCandidate)
    (l : List PasswordCandidate) (q : Rat) :
    (insertDesc a l).filter (fun c => c.confidence = q)
      = if a.confidence = q
        then a :: l.filter (fun c => c.confidence = q)
        else l.filter (fun c => c.confidence = q) := by
  induction l with
  | nil =>
    by_cases h : a.confidence = q <;> simp [insertDesc, h]
  | cons y ys ih =>
    by_cases hlt : a.confidence < y.confidence
    · rw [show insertDesc a (y :: ys) = y :: insertDesc a ys from by
        simp [insertDesc, hlt]]
      by_cases ha : a.confidence = q
      · have hy : ¬ y.confidence = q := by
          intro hyq
          rw [ha, hyq] at hlt
          exact lt_irrefl q hlt
        simp [List.filter_cons, hy, ih, ha]
      · by_cases hy : y.confidence = q <;>
          simp [List.filter_cons, hy, ih, ha]
    · rw [show insertDesc a (y :: ys) = a :: y :: ys from by
        simp [insertDesc, hlt]]
      by_cases ha : a.confidence = q <;> simp [List.filter_cons, ha]

/-- Sorting is stable: for every confidence value, the entries holding it
appear in the sorted output exactly as they appear in the input. -/
theorem filter_sortByConfDesc (l : List PasswordCandidate) (q : Rat) :
    (sortByConfDesc l).filter (fun c => c.confidence = q)
      = l.filter (fun c => c.confidence = q) := by
  induction l with
  | nil => rfl
  | cons a l ih =>
    by_cases ha : a.confidence = q <;>
      simp [sortByConfDesc, filter_insertDesc, ha, List.filter_cons, ih]

/-- The dedup loop keeps a subsequence of its input. -/
theorem dedupByPassword_sublist (seen : List String)
    (l : List PasswordCandidate) : List.Sublist (dedupByPassword seen l) l := by
  induction l generalizing seen with
  | nil => simp [dedupByPassword]
  | cons c cs ih =>
    by_cases h : c.password ∈ seen
    · rw [show dedupByPassword seen (c :: cs) = dedupByPassword seen cs from
        by simp [dedupByPassword, h]]
      exact (ih seen).cons c
    · rw [show dedupByPassword seen (c :: cs)
          = c :: dedupByPassword (c.password :: seen) cs from
        by simp [dedupByPassword, h]]
      exact (ih _).cons₂ c

/-- The dedup loop yields pairwise-distinct password values, none of them in
the `seen` accumulator. -/
theorem nodup_dedupByPassword (seen : List String)
    (l : List PasswordCandidate) :
    ((dedupByPassword seen l).map (fun c => c.password)).Nodup ∧
      ∀ c ∈ dedupByPassword seen l, c.password ∉ seen := by
  induction l generalizing seen with
  | nil => simp [dedupByPassword]
  | cons c cs ih =>
    by_cases h : c.password ∈ seen
    · rw [show dedupByPassword seen (c :: cs) = dedupByPassword seen cs from
        by simp [dedupByPassword, h]]
      exact ih seen
    · rw [show dedupByPassword seen (c :: cs)
          = c :: dedupByPassword (c.password :: seen) cs from
        by simp [dedupByPassword, h]]
      obtain ⟨hnd, hseen⟩ := ih (c.password :: seen)
      refine ⟨?_, ?_⟩
      · rw [List.map_cons, List.nodup_cons]
        refine ⟨?_, hnd⟩
        intro hmem
        obtain ⟨d, hd, hdp⟩ := List.mem_map.mp hmem
        exact hseen d hd (by rw [hdp]; exact List.mem_cons_self _ _)
      · intro d hd
        rcases List.mem_cons.mp hd with rfl | hd'
        · exact h
        · intro hds
          exact hseen d hd' (List.mem_cons_of_mem _ hds)

/-- Every entry kept by the dedup loop is the first entry of the input list
holding its password value. -/
theorem dedup_find_first (seen : List String) (l : List PasswordCandidate)
    (c : PasswordCandidate) (hc : c ∈ dedupByPassword seen l) :
    l.find? (fun d => d.password = c.password) = some c := by
  induction l generalizing seen with
  | nil => simp [dedupByPassword] at hc
  | cons x xs ih =>
    by_cases h : x.password ∈ seen
    · rw [show dedupByPassword seen (x :: xs) = dedupByPassword seen xs from
        by simp [dedupByPassword, h]] at hc
      have hcpw : c.password ∉ seen := (nodup_dedupByPassword seen xs).2 c hc
      have hne : ¬ x.password = c.password := fun he => hcpw (he ▸ h)
      have hd : decide (x.password = c.password) = false := by simp [hne]
      simp only [List.find?, hd]
      exact ih seen hc
    · rw [show dedupByPassword seen (x :: xs)
          = x :: dedupByPassword (x.password :: seen) xs from
        by simp [dedupByPassword, h]] at hc
      rcases List.mem_cons.mp hc with rfl | hc'
      · simp [List.find?]
      · have hcpw : c.password ∉ x.password :: seen :=
          (nodup_dedupByPassword _ xs).2 c hc'
        have hne : ¬ x.password = c.password := by
          intro he
          exact hcpw (by rw [he]; exact List.mem_cons_self _ _)
        have hd : decide (x.password = c.password) = false := by simp [hne]
        simp only [List.find?, hd]
        exact ih _ hc'

/-- The merged candidate list carries no duplicate password values. -/
theorem mergeCandidates_nodup (l : List PasswordCandidate) :
    ((mergeCandidates l).map (fun c => c.password)).Nodup :=
  ((nodup_dedupByPassword [] (sortByConfDesc l)).1).sublist
    ((List.take_sublist _ _).map _)

/-- The merged candidate list is non-increasing in confidence. -/
theorem mergeCandidates_pairwise (l : List PasswordCandidate) :
    (mergeCandidates l).Pairwise fun p q => q.confidence ≤ p.confidence :=
  ((pairwise_sortByConfDesc l).sublist
    (dedupByPassword_sublist [] _)).sublist (List.take_sublist _ _)

/-- The merged candidate list has at most 20 entries. -/
theorem mergeCandidates_length (l : List PasswordCandidate) :
    (mergeCandidates l).length ≤ 20 := by
  simp [mergeCandidates]

/-- Every merged candidate comes from the input list. -/
theorem mem_mergeCandidates (c : PasswordCandidate)
    (l : List PasswordCandidate) (h : c ∈ mergeCandidates l) : c ∈ l :=
  (mem_sortByConfDesc c l).mp
    ((dedupByPassword_sublist [] _).mem ((List.take_sublist _ _).mem h))

/-- Every merged candidate is the first entry of the sorted list holding its
password value: the dedup keeps the highest-confidence occurrence, ties
broken by insertion order. -/
theorem mergeCandidates_first_occurrence (c : PasswordCandidate)
    (l : List PasswordCandidate) (h : c ∈ mergeCandidates l) :
    (sortByConfDesc l).find? (fun d => d.password = c.password) = some c :=
  dedup_find_first [] _ c ((List.take_sublist _ _).mem h)

/-- C1: for every email row, personal data and LLM outcome, the candidate
list returned by `generate_passwords_for_email` has no two entries with the
same password value, is ordered by non-increasing confidence, and has at most
20 entries; moreover the merge it applies uses a stable descending sort (for
each confidence value, the entries holding it keep their input order) and
keeps, for each duplicated value, only its first — highest-confidence —
occurrence. -/
theorem generated_candidates_invariants (row : Option EmailRow)
    (personal_data : List (String × String)) (llm : Option LLMNetOutcome)
    (fOS : String → Option Rat) (jL : String → Option JVal)
    (cands : List PasswordCandidate) (q : Rat) (c : PasswordCandidate)
    (hc : c ∈ mergeCandidates cands) :
    ((generate_passwords_for_email row personal_data llm fOS jL).map
        (fun x => x.password)).Nodup ∧
      (generate_passwords_for_email row personal_data llm fOS jL).Pairwise
        (fun p r => r.confidence ≤ p.confidence) ∧
      (generate_passwords_for_email row personal_data llm fOS jL).length
        ≤ 20 ∧
      (sortByConfDesc cands).filter (fun d => d.confidence = q)
        = cands.filter (fun d => d.confidence = q) ∧
      (sortByConfDesc cands).find? (fun d => d.password = c.password)
        = some c := by
  refine ⟨?_, ?_, ?_, filter_sortByConfDesc cands q,
    mergeCandidates_first_occurrence c cands hc⟩
  · cases row with
    | none => simp [generate_passwords_for_email]
    | some r => exact mergeCandidates_nodup _
  · cases row with
    | none => simp [generate_passwords_for_email]
    | some r => exact mergeCandidates_pairwise _
  · cases row with
    | none => simp [generate_passwords_for_email]
    | some r => exact mergeCandidates_length _

/-- C1 witness: on the two-entry input sharing the value `aaaa`, the merge
keeps the 7.0 entry, and the invariants hold at the concrete call. -/
theorem generated_candidates_invariants_witness :
    w1b ∈ mergeCandidates [w1a, w1b] ∧
      (((generate_passwords_for_email none [] none (fun _ => none)
            (fun _ => none)).map (fun x => x.password)).Nodup ∧
        (generate_passwords_for_email none [] none (fun _ => none)
            (fun _ => none)).Pairwise
          (fun p r => r.confidence ≤ p.confidence) ∧
        (generate_passwords_for_email none [] none (fun _ => none)
            (fun _ => none)).length ≤ 20 ∧
        (sortByConfDesc [w1a, w1b]).filter (fun d => d.confidence = 7)
          = [w1a, w1b].filter (fun d => d.confidence = 7) ∧
        (sortByConfDesc [w1a, w1b]).find? (fun d => d.password = w1b.password)
          = some w1b) :=
  ⟨by decide, generated_candidates_invariants none [] none (fun _ => none)
    (fun _ => none) [w1a, w1b] 7 w1b (by decide)⟩

/-- C4: for every LLM failure — endpoint unreachable, non-200 HTTP status,
timeout, or a body whose brace-delimited substring `json.loads` rejects (or
that has none) — candidate generation returns exactly the rule-based result
(as if no LLM were configured) and contains zero `source = llm` entries; the
failure is absorbed, never raised (the embedding is total: every failure path
is a caught exception in the source). -/
theorem llm_failure_rule_based_only (row : Option EmailRow)
    (personal_data : List (String × String)) (outcome : LLMNetOutcome)
    (fOS : String → Option Rat) (jL : String → Option JVal)
    (hfail : llmFailure jL outcome) :
    generate_passwords_for_email row personal_data (some outcome) fOS jL
        = generate_passwords_for_email row personal_data none fOS jL ∧
      ∀ c ∈ generate_passwords_for_email row personal_data (some outcome)
          fOS jL, c.source ≠ "llm" := by
  have hparse : parse_llm_response fOS jL (generate_response outcome) = [] := by
    cases outcome with
    | ok body =>
      unfold parse_llm_response generate_response
      cases hbe : bracesExtract body.toList with
      | none => simp [hbe]
      | some u => simp [hbe, hfail u hbe]
    | httpError code => rfl
    | unreachable => rfl
    | timeout => rfl
  have hsame : generate_passwords_for_email row personal_data (some outcome)
      fOS jL = generate_passwords_for_email row personal_data none fOS jL := by
    cases row with
    | none => rfl
    | some r => simp [generate_passwords_for_email, hparse]
  refine ⟨hsame, ?_⟩
  intro c hc
  cases row with
  | none => simp [generate_passwords_for_email] at hc
  | some r =>
    rw [hsame] at hc
    simp only [generate_passwords_for_email] at hc
    have hmem := mem_mergeCandidates c _ hc
    rcases List.mem_append.mp hmem with hl | hr
    · simp at hl
    · have hclass := rule_based_source_conf _ _ _ _ _ c hr
      intro hsrc
      rw [hsrc] at hclass
      simp at hclass

/-- C4 witness: an HTTP 500 from the LLM endpoint leaves the generator's
output equal to the rule-based-only output, with no `llm`-source entry. -/
theorem llm_failure_rule_based_only_witness :
    llmFailure (fun _ => none) (.httpError 500) ∧
      (generate_passwords_for_email (some c4Row) [] (some (.httpError 500))
          (fun _ => none) (fun _ => none)
        = generate_passwords_for_email (some c4Row) [] none (fun _ => none)
            (fun _ => none) ∧
      ∀ c ∈ generate_passwords_for_email (some c4Row) []
          (some (.httpError 500)) (fun _ => none) (fun _ => none),
        c.source ≠ "llm") :=
  ⟨trivial, llm_failure_rule_based_only (some c4Row) [] (.httpError 500)
    (fun _ => none) (fun _ => none) trivial⟩

/-! ## Theorems: the hint extractor (claim C7) -/

/-- C7 counterexample: two email texts containing a literal
`password: XXXX` token (token = maximal run of non-space characters, length
≥ 4, ending the text) whose hint set does not contain `XXXX`.  In the first,
the 21-character token is cut to 20 by the group bound; in the second, the
match starting at the first `password` captures the second `password:` as its
group and scanning resumes after it, skipping `abcd`. -/
theorem hint_extractor_misses_token :
    (containsSub ("password: " ++ "abcdefghijklmnopqrstu").toList c7BodyA
        = true ∧
      4 ≤ "abcdefghijklmnopqrstu".toList.length ∧
      "abcdefghijklmnopqrstu" ∉ extract_password_hints c7BodyA) ∧
    (containsSub ("password: " ++ "abcd").toList c7BodyB = true ∧
      4 ≤ "abcd".toList.length ∧
      "abcd" ∉ extract_password_hints c7BodyB) := by
  refine ⟨⟨by decide, by decide, by decide⟩, by decide, by decide, by decide⟩

/-- Membership survives the set dedup. -/
theorem mem_dedupKeepFirst_of_mem (seen : List String) (l : List String)
    (x : String) (hx : x ∈ l) (hs : x ∉ seen) :
    x ∈ dedupKeepFirst seen l := by
  induction l generalizing seen with
  | nil => cases hx
  | cons s rest ih =>
    by_cases h : s ∈ seen
    · rw [show dedupKeepFirst seen (s :: rest) = dedupKeepFirst seen rest from
        by simp [dedupKeepFirst, h]]
      rcases List.mem_cons.mp hx with rfl | hx'
      · exact absurd h hs
      · exact ih seen hx' hs
    · rw [show dedupKeepFirst seen (s :: rest)
          = s :: dedupKeepFirst (s :: seen) rest from
        by simp [dedupKeepFirst, h]]
      rcases List.mem_cons.mp hx with rfl | hx'
      · exact List.mem_cons_self _ _
      · by_cases hxs : x = s
        · exact hxs ▸ List.mem_cons_self _ _
        · refine List.mem_cons_of_mem _ (ih (s :: seen) hx' ?_)
          intro hm
          rcases List.mem_cons.mp hm with h1 | h2
          · exact hxs h1
          · exact hs h2

/-- A hint-class character other than colon and equals is not in the gap
class. -/
theorem wsColEq_false_of_class (c : Char) (hc : hintClassChar c = true)
    (h1 : c ≠ ':') (h2 : c ≠ '=') : wsColEq c = false := by
  by_contra hw
  rw [Bool.not_eq_false] at hw
  simp only [wsColEq, Bool.or_eq_true, decide_eq_true_eq] at hw
  rcases hw with (((((((h | h) | h) | h) | h) | h) | h) | h)
  · subst h; exact absurd hc (by decide)
  · subst h; exact absurd hc (by decide)
  · subst h; exact absurd hc (by decide)
  · subst h; exact absurd hc (by decide)
  · subst h; exact absurd hc (by decide)
  · subst h; exact absurd hc (by decide)
  · exact h1 h
  · exact h2 h

/-- `takeWhile` over an append whose left part satisfies the predicate and
whose right part starts failing it. -/
theorem takeWhile_append_all (p : Char → Bool) (X B : List Char)
    (hX : ∀ c ∈ X, p c = true) (hB : ∀ c ∈ B.head?, p c = false) :
    (X ++ B).takeWhile p = X := by
  induction X with
  | nil =>
    cases B with
    | nil => rfl
    | cons b bs =>
      have hb := hB b (by simp)
      simp [List.takeWhile_cons, hb]
  | cons c cs ih =>
    have hc := hX c (List.mem_cons_self _ _)
    simp [List.takeWhile_cons, hc,
      ih fun d hd => hX d (List.mem_cons_of_mem _ hd)]

/-- A case-insensitive literal made of lower-case characters matches at the
front of any text that starts with it verbatim. -/
theorem startsWithCI_append_self (p u : List Char)
    (hp : ∀ c ∈ p, lowerChar c = c) : startsWithCI p (p ++ u) = true := by
  induction p with
  | nil => rfl
  | cons c cs ih =>
    simp only [List.cons_append, startsWithCI]
    rw [hp c (List.mem_cons_self _ _)]
    simp [ih fun d hd => hp d (List.mem_cons_of_mem _ hd)]

/-- A greedy backtracking search succeeds immediately when its topmost
attempt succeeds. -/
theorem firstDesc_top (f : Nat → Option α) (lo hi : Nat) (h : lo ≤ hi)
    (x : α) (hx : f hi = some x) : firstDesc f lo hi = some x := by
  unfold firstDesc
  rw [if_neg (not_lt.mpr h)]
  cases hd : hi - lo with
  | zero =>
    have hlo : lo = hi := by omega
    simp [firstDescAux, hlo, hx]
  | succ d =>
    have hsum : lo + d + 1 = hi := by omega
    simp [firstDescAux, hsum, hx]

/-- The gap-and-group tail on a colon, a space, then a maximal class token of
4 to 20 characters: the greedy gap takes the colon and space, and the group
is exactly the token. -/
theorem hintTail_colon_space (x : Char) (X B : List Char)
    (hclass : ∀ c ∈ x :: X, hintClassChar c = true)
    (hx1 : x ≠ ':') (hx2 : x ≠ '=')
    (hlen4 : 4 ≤ (x :: X).length) (hlen20 : (x :: X).length ≤ 20)
    (hB : ∀ c ∈ B.head?, hintClassChar c = false) :
    hintTail (':' :: ' ' :: ((x :: X) ++ B)) = some (x :: X, B) := by
  have hwx : wsColEq x = false :=
    wsColEq_false_of_class x (hclass x (List.mem_cons_self _ _)) hx1 hx2
  have htw : ((':' :: ' ' :: ((x :: X) ++ B)).takeWhile wsColEq).length = 2 := by
    rw [show (x :: X) ++ B = x :: (X ++ B) from rfl]
    simp [List.takeWhile_cons, hwx]
    decide
  have hrun : ((x :: X) ++ B).takeWhile hintClassChar = x :: X :=
    takeWhile_append_all _ _ _ hclass hB
  unfold hintTail
  rw [htw]
  apply firstDesc_top _ 0 2 (by omega)
  have hdrop : (':' :: ' ' :: ((x :: X) ++ B)).drop 2 = (x :: X) ++ B := rfl
  simp only [hdrop, hrun]
  rw [if_pos hlen4, Nat.min_eq_right hlen20, List.take_left, List.drop_left]

/-- Scanning past a prefix in which the literal matches nowhere leaves the
`finditer` of the hint pattern untouched (with enough fuel left). -/
theorem finditerHintAux_skip (lit A rest : List Char) (fuel : Nat)
    (hfuel : (A ++ rest).length ≤ fuel)
    (h : ∀ i, i < A.length →
      startsWithCI lit ((A ++ rest).drop i) = false) :
    ∃ fuel', rest.length ≤ fuel' ∧
      finditerHintAux lit fuel (A ++ rest) = finditerHintAux lit fuel' rest := by
  induction A generalizing fuel with
  | nil => exact ⟨fuel, by simpa using hfuel, rfl⟩
  | cons a A ih =>
    cases fuel with
    | zero =>
      exfalso
      simp [List.length_append] at hfuel
    | succ f =>
      have h0 : startsWithCI lit (a :: (A ++ rest)) = false := by
        have := h 0 (by simp)
        simpa using this
      have hstep : finditerHintAux lit (f + 1) ((a :: A) ++ rest)
          = finditerHintAux lit f (A ++ rest) := by
        rw [show (a :: A) ++ rest = a :: (A ++ rest) from rfl]
        simp [finditerHintAux, h0]
      rw [hstep]
      refine ih f ?_ ?_
      · simp only [List.length_append] at hfuel ⊢
        simp [List.length_cons] at hfuel
        omega
      · intro i hi
        have := h (i + 1) (by simpa using Nat.succ_lt_succ hi)
        simpa using this

/-- Where the literal matches and the tail succeeds, the `finditer` of the
hint pattern emits the group and resumes after the match. -/
theorem finditerHintAux_emit (lit : List Char) (f : Nat) (c : Char)
    (cs : List Char) (hs : startsWithCI lit (c :: cs) = true)
    (g r : List Char)
    (ht : hintTail ((c :: cs).drop lit.length) = some (g, r)) :
    finditerHintAux lit (f + 1) (c :: cs) = g :: finditerHintAux lit f r := by
  simp [finditerHintAux, hs, ht]

/-- C7 amended: for every email text whose first case-insensitive occurrence
of the literal `password` is immediately followed by a colon, a space, and a
token `XXXX` of 4 to 20 hint-class characters not starting with a colon or an
equals sign and followed by the end of the text or a non-class character, the
hint set contains `XXXX`.  (The counterexample shows the bound of 20 and the
first-occurrence condition are both necessary: longer tokens are truncated,
and an earlier `password` occurrence can consume the token's own `password:`
prefix as its match.) -/
theorem hint_extractor_first_occurrence (A B X' : List Char) (x : Char)
    (hA : ∀ i, i < A.length →
      startsWithCI "password".toList
        ((A ++ ("password: ".toList ++ ((x :: X') ++ B))).drop i) = false)
    (hclass : ∀ c ∈ x :: X', hintClassChar c = true)
    (hx1 : x ≠ ':') (hx2 : x ≠ '=')
    (hlen4 : 4 ≤ (x :: X').length) (hlen20 : (x :: X').length ≤ 20)
    (hB : ∀ c ∈ B.head?, hintClassChar c = false) :
    (x :: X').asString ∈ extract_password_hints
      (A ++ ("password: ".toList ++ ((x :: X') ++ B))) := by
  have hne : A ++ ("password: ".toList ++ ((x :: X') ++ B)) ≠ [] := by
    intro h0
    rcases List.append_eq_nil.mp h0 with ⟨_, h2⟩
    rcases List.append_eq_nil.mp h2 with ⟨h3, _⟩
    exact absurd h3 (by decide)
  have hmem1 : x :: X' ∈ finditerHint "password".toList
      (A ++ ("password: ".toList ++ ((x :: X') ++ B))) := by
    rw [finditerHint]
    obtain ⟨fuel', hf, heq⟩ := finditerHintAux_skip "password".toList A
      ("password: ".toList ++ ((x :: X') ++ B))
      (A ++ ("password: ".toList ++ ((x :: X') ++ B))).length (le_refl _) hA
    rw [heq]
    cases fuel' with
    | zero =>
      exfalso
      simp [List.length_append] at hf
    | succ f =>
      have hs : startsWithCI "password".toList
          ("password: ".toList ++ ((x :: X') ++ B)) = true := by
        rw [show "password: ".toList ++ ((x :: X') ++ B)
            = "password".toList ++ (':' :: ' ' :: ((x :: X') ++ B)) from rfl]
        exact startsWithCI_append_self _ _ (by decide)
      have ht : hintTail (':' :: ' ' :: ((x :: X') ++ B))
          = some (x :: X', B) :=
        hintTail_colon_space x X' B hclass hx1 hx2 hlen4 hlen20 hB
      have hemit : finditerHintAux "password".toList (f + 1)
          ("password: ".toList ++ ((x :: X') ++ B))
          = (x :: X') :: finditerHintAux "password".toList f B :=
        finditerHintAux_emit "password".toList f 'p'
          ("assword: ".toList ++ ((x :: X') ++ B)) hs (x :: X') B ht
      rw [hemit]
      exact List.mem_cons_self _ _
  unfold extract_password_hints
  rw [if_neg hne]
  exact mem_dedupKeepFirst_of_mem [] _ _
    (List.mem_map_of_mem _ (List.mem_append_left _ (List.mem_append_left _
      (List.mem_append_left _ (List.mem_append_left _ (List.mem_append_left _
        (List.mem_append_left _ hmem1))))))) (by simp)

/-- C7 amended witness: on the body `password: abcd` the token `abcd`
(length 4, all class characters, ending the text) is extracted. -/
theorem hint_extractor_first_occurrence_witness :
    4 ≤ ('a' :: "bcd".toList).length ∧
      ('a' :: "bcd".toList).asString ∈ extract_password_hints
        ([] ++ ("password: ".toList ++ (('a' :: "bcd".toList) ++ []))) :=
  ⟨by decide, hint_extractor_first_occurrence [] [] "bcd".toList 'a'
    (by intro i hi; simp at hi) (by decide) (by decide) (by decide)
    (by decide) (by decide) (by simp)⟩

end WIO
